import Mathlib

/-!
Admission control primitives: token-bucket limiter and overload detector.

Shallow embedding of `rate-limiter/cmd/main.go` and `load-shedding/cmd/main.go`.

Modelling conventions:

* Go's `int` is a signed 64-bit integer: a value is an `Int`, and every `int` or
  `time.Duration` operation of `IsLimitReached` (`+`, `-`, `*`, the result of `/`,
  the conversion `int(...)`) is followed by `wrapInt64`, the two's-complement wrap.
* `time.Time` is an integer counting nanoseconds; the elapsed time
  `time.Since(b.lastRefillTime)` is the exact difference of two clock readings and
  `lastRefillTime.Add` is exact addition.
* Every call of `IsLimitReached` takes one clock reading `now`, which stands for
  the `time.Now()` / `time.Since` readings taken inside that call; likewise one
  reading per tick of the overload detector.
* The detector loop is a step function over the events its `select` takes.
* Go's integer division truncates toward zero and panics on a zero divisor:
  `goDiv` returns `none` for the panic.
* `map[string]*bucket` is a function from keys to optional buckets.
-/

namespace RateLimiterModel

/-- Go integer division: truncation toward zero, run-time panic on a zero divisor. -/
def goDiv (a b : Int) : Option Int :=
  if b = 0 then none else some (Int.tdiv a b)

/-- Two's-complement wrap of an integer to the signed 64-bit range, as Go's `int` and
`int64` arithmetic does on overflow. -/
def wrapInt64 (x : Int) : Int :=
  (x + 9223372036854775808) % 18446744073709551616 - 9223372036854775808

/-- The `bucket` struct of `rate-limiter/cmd/main.go`. -/
structure bucket where
  remainingTokens : Int
  lastRefillTime : Int
  deriving DecidableEq, Repr

/-- The `RateLimiter` struct (the mutex carries no data). -/
structure RateLimiter where
  maxTokens : Int
  refillInterval : Int
  buckets : String → Option bucket

/-- Constructor `NewRateLimiter(rate, perInterval)`: the arguments are stored as given, the map is empty. -/
def NewRateLimiter (rate : Int) (perInterval : Int) : RateLimiter :=
  { maxTokens := rate, refillInterval := perInterval, buckets := fun _ => none }

/-- Store bucket `b` under key `id`, as `rl.buckets[id] = &bucket{...}` or a write through `b`. -/
def setBucket (rl : RateLimiter) (id : String) (b : bucket) : RateLimiter :=
  { rl with buckets := fun k => if k = id then some b else rl.buckets k }

/-- Method `RateLimiter.IsLimitReached(id)` at clock reading `now`: the decision (`true` is reject)
and the limiter state after the call; `none` when the call panics. The locals carry the
names of the source; each 64-bit operation is wrapped. -/
def IsLimitReached (rl : RateLimiter) (id : String) (now : Int) : Option (Bool × RateLimiter) :=
  match rl.buckets id with
  | none =>
    some (false, setBucket rl id
      { remainingTokens := wrapInt64 (rl.maxTokens - 1), lastRefillTime := now })
  | some b =>
    match goDiv (now - b.lastRefillTime) rl.refillInterval with
    | none => none
    | some quotient =>
      let refillInterval := wrapInt64 quotient
      let tokensAdded := wrapInt64 (rl.maxTokens * refillInterval)
      let currentTokens := wrapInt64 (b.remainingTokens + tokensAdded)
      if currentTokens < 1 then
        some (true, rl)
      else if currentTokens > rl.maxTokens then
        some (false, setBucket rl id
          { remainingTokens := wrapInt64 (rl.maxTokens - 1), lastRefillTime := now })
      else
        let deltaTokens := wrapInt64 (currentTokens - b.remainingTokens)
        match goDiv deltaTokens rl.maxTokens with
        | none => none
        | some quotient2 =>
          let deltaRefills := wrapInt64 quotient2
          let deltaTime := wrapInt64 (deltaRefills * rl.refillInterval)
          some (false, setBucket rl id
            { remainingTokens := wrapInt64 (currentTokens - 1)
              lastRefillTime := b.lastRefillTime + deltaTime })

/-- The quotient `time.Since(b.lastRefillTime) / rl.refillInterval` of line 46 (Go's
truncating division), before its conversion to `int`. -/
def elapsedIntervals (rl : RateLimiter) (b : bucket) (now : Int) : Option Int :=
  goDiv (now - b.lastRefillTime) rl.refillInterval

/-- The spec's `available`: `remainingTokens + maxTokens * elapsedIntervals` over the
integers, without overflow. The value the code computes in `currentTokens` (line 48) is
`currentTokens64`. -/
def available (rl : RateLimiter) (b : bucket) (now : Int) : Option Int :=
  (elapsedIntervals rl b now).map (fun n => b.remainingTokens + rl.maxTokens * n)

/-- The value of line 46 as computed on 64-bit integers. -/
def elapsedIntervals64 (rl : RateLimiter) (b : bucket) (now : Int) : Option Int :=
  (goDiv (now - b.lastRefillTime) rl.refillInterval).map wrapInt64

/-- The value `tokensAdded` of line 47 as computed on 64-bit integers. -/
def tokensAdded64 (rl : RateLimiter) (b : bucket) (now : Int) : Option Int :=
  (elapsedIntervals64 rl b now).map (fun n => wrapInt64 (rl.maxTokens * n))

/-- The value `currentTokens` of line 48 as computed on 64-bit integers. -/
def currentTokens64 (rl : RateLimiter) (b : bucket) (now : Int) : Option Int :=
  (tokensAdded64 rl b now).map (fun a => wrapInt64 (b.remainingTokens + a))

/-- The value `deltaRefills` of lines 62-63 as computed on 64-bit integers, from the value
of `currentTokens`. -/
def deltaRefills64 (rl : RateLimiter) (b : bucket) (currentTokens : Int) : Option Int :=
  (goDiv (wrapInt64 (currentTokens - b.remainingTokens)) rl.maxTokens).map wrapInt64

/-- The value `deltaTime` of line 64 as computed on 64-bit integers. -/
def deltaTime64 (rl : RateLimiter) (b : bucket) (currentTokens : Int) : Option Int :=
  (deltaRefills64 rl b currentTokens).map (fun n => wrapInt64 (n * rl.refillInterval))

/-- One completed call: key, clock reading, decision, and the limiter state after it. -/
structure Event where
  key : String
  time : Int
  limited : Bool
  after : RateLimiter

/-- A sequence of `IsLimitReached` calls `(id, now)` run in order from `rl`: the log of the
calls and the final state; `none` when some call panics. -/
def runCalls : RateLimiter → List (String × Int) → Option (List Event × RateLimiter)
  | rl, [] => some ([], rl)
  | rl, (id, now) :: cs =>
    match IsLimitReached rl id now with
    | none => none
    | some (d, rl') =>
      match runCalls rl' cs with
      | none => none
      | some (es, rl'') => some ({ key := id, time := now, limited := d, after := rl' } :: es, rl'')

/-- The decisions of a run, in call order. -/
def decisions (rl : RateLimiter) (cs : List (String × Int)) : Option (List Bool) :=
  (runCalls rl cs).map (fun r => r.1.map Event.limited)

/-- The bucket of key `c` after a run. -/
def bucketAfter (rl : RateLimiter) (cs : List (String × Int)) (c : String) : Option bucket :=
  (runCalls rl cs).bind (fun r => r.2.buckets c)

/-- Clock readings of a call sequence never decrease. -/
def nonDecreasing (cs : List (String × Int)) : Prop :=
  cs.Pairwise (fun a b => a.2 ≤ b.2)

instance (cs : List (String × Int)) : Decidable (nonDecreasing cs) := by
  unfold nonDecreasing; infer_instance

/-- Number of allowed calls of key `c` in a log whose clock reading lies in `[lo, hi)`. -/
def allowedIn (c : String) (lo hi : Int) (es : List Event) : Nat :=
  es.countP (fun e => decide (e.key = c) && !e.limited && decide (lo ≤ e.time) && decide (e.time < hi))

/-- The capacity bound over a sliding window, for one configuration and call sequence: for
every allowed call at time `t`, at most `cap` allowed calls of the same key have a clock
reading in `[t, t + R)`. -/
def slidingWindowBound (cap R : Int) (cs : List (String × Int)) : Prop :=
  ∀ es fin, runCalls (NewRateLimiter cap R) cs = some (es, fin) →
    ∀ e ∈ es, e.limited = false → (allowedIn e.key e.time (e.time + R) es : Int) ≤ cap

/-- Invariant of a bucket and the log `hist` of the calls made so far: `remainingTokens` is
a 64-bit value, it lies between 0 and `cap - 1` when `cap` is at most `2^63`, and
`lastRefillTime` is not after the clock reading of some logged call. -/
def BucketInv (cap : Int) (hist : List Event) (b : bucket) : Prop :=
  -9223372036854775808 ≤ b.remainingTokens ∧ b.remainingTokens < 9223372036854775808 ∧
  (cap ≤ 9223372036854775808 → 0 ≤ b.remainingTokens ∧ b.remainingTokens ≤ cap - 1) ∧
  ∃ e ∈ hist, b.lastRefillTime ≤ e.time

/-- The invariant of a limiter state and the log of the calls that led to it. -/
def LogInv (cap R : Int) (hist : List Event) (rl : RateLimiter) : Prop :=
  rl.maxTokens = cap ∧ rl.refillInterval = R ∧
    ∀ c b, rl.buckets c = some b → BucketInv cap hist b

/-- Example run with capacity 1 and interval 10: calls of "c" at 0, 15 and 20. -/
def exampleCalls : List (String × Int) := [("c", 0), ("c", 15), ("c", 20)]

/-- State of the example run after the call at 0. -/
def exampleState1 : RateLimiter := setBucket (NewRateLimiter 1 10) "c" ⟨0, 0⟩

/-- State of the example run after the call at 15. -/
def exampleState2 : RateLimiter := setBucket exampleState1 "c" ⟨0, 10⟩

/-- State of the example run after the call at 20. -/
def exampleState3 : RateLimiter := setBucket exampleState2 "c" ⟨0, 20⟩

/-- Log of the example run: every call is allowed. -/
def exampleLog : List Event :=
  [⟨"c", 0, false, exampleState1⟩, ⟨"c", 15, false, exampleState2⟩,
   ⟨"c", 20, false, exampleState3⟩]

/-- A limiter with capacity `2^62` and a one-second interval (in nanoseconds). -/
def largeLimiter : RateLimiter := NewRateLimiter 4611686018427387904 1000000000

/-- The state of `largeLimiter` after the first call of "c" at clock reading 0. -/
def largeLimiter1 : RateLimiter := setBucket largeLimiter "c" ⟨4611686018427387903, 0⟩

end RateLimiterModel

namespace LoadShedderModel

/-- The `LoadShedder` struct together with the locals of its `runOverLoadDetector`
goroutine: `startTime`, and whether the loop is still running. -/
structure LoadShedder where
  isOverLoaded : Bool
  startTime : Int
  running : Bool
  deriving DecidableEq, Repr

/-- What one iteration of the `select` takes: a tick read at clock reading `now`, or `ctx.Done()`. -/
inductive Event where
  | tick (now : Int)
  | done
  deriving DecidableEq, Repr

/-- Constructor `NewLoadShedder`: zero-valued flag; the goroutine reads `startTime` from the clock. -/
def NewLoadShedder (_checkInterval _overloadFactor : Int) (now : Int) : LoadShedder :=
  { isOverLoaded := false, startTime := now, running := true }

/-- Body of the `case <-ticker.C` branch at clock reading `now`. -/
def tickStep (overloadFactor : Int) (ls : LoadShedder) (now : Int) : LoadShedder :=
  let elapsed := now - ls.startTime
  if elapsed > overloadFactor then
    { ls with isOverLoaded := true, startTime := now }
  else
    { ls with isOverLoaded := false, startTime := now }

/-- One iteration of the loop of `runOverLoadDetector`; a returned loop takes no event. -/
def runOverLoadDetector (overloadFactor : Int) (ls : LoadShedder) : Event → LoadShedder
  | .done => { ls with running := false }
  | .tick now => if ls.running then tickStep overloadFactor ls now else ls

/-- The loop over a sequence of events. -/
def runEvents (overloadFactor : Int) (ls : LoadShedder) (evs : List Event) : LoadShedder :=
  evs.foldl (runOverLoadDetector overloadFactor) ls

/-- Method `LoadShedder.IsOverLoaded()`: an atomic read of the flag. -/
def IsOverLoaded (ls : LoadShedder) : Bool := ls.isOverLoaded

end LoadShedderModel

namespace RateLimiterModel

/-! ## 64-bit wrap and division -/

theorem wrapInt64_of_range (x : Int) (h0 : -9223372036854775808 ≤ x)
    (h1 : x < 9223372036854775808) : wrapInt64 x = x := by
  unfold wrapInt64
  omega

theorem wrapInt64_range (x : Int) :
    -9223372036854775808 ≤ wrapInt64 x ∧ wrapInt64 x < 9223372036854775808 := by
  unfold wrapInt64
  omega

theorem wrapInt64_le_self (x : Int) (h : -9223372036854775808 ≤ x) : wrapInt64 x ≤ x := by
  unfold wrapInt64
  omega

theorem wrapInt64_zero : wrapInt64 0 = 0 := by decide

theorem wrapInt64_one : wrapInt64 1 = 1 := by decide

theorem goDiv_eq_some (a b : Int) (h : b ≠ 0) : goDiv a b = some (Int.tdiv a b) := by
  simp [goDiv, h]

theorem goDiv_some_ne_zero {a b n : Int} (h : goDiv a b = some n) : b ≠ 0 ∧ n = Int.tdiv a b := by
  unfold goDiv at h
  split at h
  · cases h
  · refine ⟨by assumption, ?_⟩
    cases h
    rfl

theorem tdiv_eq_zero_of_abs_lt (a b : Int) (h1 : -b < a) (h2 : a < b) : Int.tdiv a b = 0 := by
  by_cases ha : 0 ≤ a
  · exact Int.tdiv_eq_zero_of_lt ha h2
  · have h := Int.tdiv_eq_zero_of_lt (a := -a) (b := b) (by omega) (by omega)
    rw [Int.neg_tdiv] at h
    omega

/-- Elapsed intervals for a clock reading at or after `lastRefillTime`. -/
theorem tdiv_elapsed (now L R : Int) (hR : 0 < R) (hL : L ≤ now) :
    0 ≤ Int.tdiv (now - L) R ∧ Int.tdiv (now - L) R * R ≤ now - L ∧
      now - L < (Int.tdiv (now - L) R + 1) * R := by
  have h0 : 0 ≤ now - L := by omega
  rw [Int.tdiv_eq_ediv h0 (le_of_lt hR)]
  exact ⟨Int.ediv_nonneg h0 (le_of_lt hR), Int.ediv_mul_le _ (ne_of_gt hR),
    Int.lt_ediv_add_one_mul_self _ hR⟩

/-! ## Single calls of `IsLimitReached` -/

theorem setBucket_buckets_same (rl : RateLimiter) (id : String) (b : bucket) :
    (setBucket rl id b).buckets id = some b := by
  simp [setBucket]

theorem setBucket_buckets_other (rl : RateLimiter) (id k : String) (b : bucket) (h : k ≠ id) :
    (setBucket rl id b).buckets k = rl.buckets k := by
  simp [setBucket, h]

/-- A call on a key without a bucket. -/
theorem IsLimitReached_new (rl : RateLimiter) (id : String) (now : Int)
    (h : rl.buckets id = none) :
    IsLimitReached rl id now = some (false, setBucket rl id
      { remainingTokens := wrapInt64 (rl.maxTokens - 1), lastRefillTime := now }) := by
  simp only [IsLimitReached, h]

/-- With a non-zero interval a call on an existing bucket takes one of the three branches
of the source, decided by the 64-bit value of `currentTokens`. -/
theorem IsLimitReached_existing (rl : RateLimiter) (id : String) (now : Int) (b : bucket)
    (hR : rl.refillInterval ≠ 0) (hb : rl.buckets id = some b) :
    ∃ cur, currentTokens64 rl b now = some cur ∧
      -9223372036854775808 ≤ cur ∧ cur < 9223372036854775808 ∧
      ((cur < 1 ∧ IsLimitReached rl id now = some (true, rl)) ∨
       (1 ≤ cur ∧ rl.maxTokens < cur ∧
        IsLimitReached rl id now = some (false, setBucket rl id
          { remainingTokens := wrapInt64 (rl.maxTokens - 1), lastRefillTime := now })) ∨
       (1 ≤ cur ∧ cur ≤ rl.maxTokens ∧ ∃ dt, deltaTime64 rl b cur = some dt ∧
        IsLimitReached rl id now = some (false, setBucket rl id
          { remainingTokens := cur - 1, lastRefillTime := b.lastRefillTime + dt }))) := by
  have hdiv := goDiv_eq_some (now - b.lastRefillTime) rl.refillInterval hR
  generalize Int.tdiv (now - b.lastRefillTime) rl.refillInterval = q at hdiv
  have hcur : currentTokens64 rl b now
      = some (wrapInt64 (b.remainingTokens + wrapInt64 (rl.maxTokens * wrapInt64 q))) := by
    simp [currentTokens64, tokensAdded64, elapsedIntervals64, hdiv]
  have hrange := wrapInt64_range (b.remainingTokens + wrapInt64 (rl.maxTokens * wrapInt64 q))
  generalize hc : wrapInt64 (b.remainingTokens + wrapInt64 (rl.maxTokens * wrapInt64 q)) = cur
    at hcur hrange
  refine ⟨cur, hcur, hrange.1, hrange.2, ?_⟩
  by_cases h1 : cur < 1
  · left
    exact ⟨h1, by simp [IsLimitReached, hb, hdiv, hc, h1]⟩
  · right
    by_cases h2 : cur > rl.maxTokens
    · left
      exact ⟨by omega, h2, by simp [IsLimitReached, hb, hdiv, hc, h1, h2]⟩
    · right
      have hm : rl.maxTokens ≠ 0 := by omega
      have hd := goDiv_eq_some (wrapInt64 (cur - b.remainingTokens)) rl.maxTokens hm
      have hw : wrapInt64 (cur - 1) = cur - 1 := wrapInt64_of_range _ (by omega) (by omega)
      refine ⟨by omega, by omega,
        wrapInt64 (wrapInt64 (Int.tdiv (wrapInt64 (cur - b.remainingTokens)) rl.maxTokens)
          * rl.refillInterval),
        by simp [deltaTime64, deltaRefills64, hd], ?_⟩
      simp only [IsLimitReached, hb, hdiv, hc, h1, h2, if_false, hd, hw]

/-- A call never panics when the interval is non-zero. -/
theorem IsLimitReached_isSome (rl : RateLimiter) (id : String) (now : Int)
    (hR : rl.refillInterval ≠ 0) : ∃ d rl', IsLimitReached rl id now = some (d, rl') := by
  cases hb : rl.buckets id with
  | none => exact ⟨_, _, IsLimitReached_new rl id now hb⟩
  | some b =>
    obtain ⟨cur, _, _, _, h | h | h⟩ := IsLimitReached_existing rl id now b hR hb
    · exact ⟨_, _, h.2⟩
    · exact ⟨_, _, h.2.2⟩
    · obtain ⟨_, _, dt, _, h⟩ := h
      exact ⟨_, _, h⟩

/-- The result of a call that returns: a rejection hands back the state, every other
outcome stores one new bucket under the key. -/
theorem IsLimitReached_result (rl rl' : RateLimiter) (id : String) (now : Int) (d : Bool)
    (h : IsLimitReached rl id now = some (d, rl')) :
    (d = true ∧ rl' = rl ∧ ∃ b, rl.buckets id = some b) ∨
    (d = false ∧ ∃ b', rl' = setBucket rl id b') := by
  unfold IsLimitReached at h
  split at h
  · simp only [Option.some.injEq, Prod.mk.injEq] at h
    exact Or.inr ⟨h.1.symm, _, h.2.symm⟩
  · rename_i b hb
    split at h
    · cases h
    · simp only at h
      split at h
      · simp only [Option.some.injEq, Prod.mk.injEq] at h
        exact Or.inl ⟨h.1.symm, h.2.symm, b, hb⟩
      · split at h
        · simp only [Option.some.injEq, Prod.mk.injEq] at h
          exact Or.inr ⟨h.1.symm, _, h.2.symm⟩
        · split at h
          · cases h
          · simp only [Option.some.injEq, Prod.mk.injEq] at h
            exact Or.inr ⟨h.1.symm, _, h.2.symm⟩

theorem IsLimitReached_frame (rl rl' : RateLimiter) (id : String) (now : Int) (d : Bool)
    (h : IsLimitReached rl id now = some (d, rl')) :
    rl'.maxTokens = rl.maxTokens ∧ rl'.refillInterval = rl.refillInterval ∧
      ∀ k, k ≠ id → rl'.buckets k = rl.buckets k := by
  rcases IsLimitReached_result rl rl' id now d h with ⟨_, rfl, _⟩ | ⟨_, b', rfl⟩
  · exact ⟨rfl, rfl, fun _ _ => rfl⟩
  · exact ⟨rfl, rfl, fun k hk => setBucket_buckets_other _ _ _ _ hk⟩

/-- A rejected call returns the state it was given, and the key had a bucket. -/
theorem IsLimitReached_reject (rl rl' : RateLimiter) (id : String) (now : Int)
    (h : IsLimitReached rl id now = some (true, rl')) :
    rl' = rl ∧ ∃ b, rl.buckets id = some b := by
  rcases IsLimitReached_result rl rl' id now true h with ⟨_, h1, h2⟩ | ⟨h1, _⟩
  · exact ⟨h1, h2⟩
  · cases h1

/-- After a call that returns, the key has a bucket. -/
theorem IsLimitReached_key_present (rl rl' : RateLimiter) (k : String) (now : Int) (d : Bool)
    (h : IsLimitReached rl k now = some (d, rl')) : ∃ b, rl'.buckets k = some b := by
  rcases IsLimitReached_result rl rl' k now d h with ⟨_, rfl, hb⟩ | ⟨_, b', rfl⟩
  · exact hb
  · exact ⟨b', setBucket_buckets_same _ _ _⟩

/-- The decision and the key's new bucket are computed from the configuration, the key's
bucket and the clock reading alone. -/
theorem IsLimitReached_congr (rl1 rl2 : RateLimiter) (k : String) (now : Int)
    (hm : rl1.maxTokens = rl2.maxTokens) (hr : rl1.refillInterval = rl2.refillInterval)
    (hb : rl1.buckets k = rl2.buckets k) :
    (IsLimitReached rl1 k now).map (fun r => (r.1, r.2.buckets k))
      = (IsLimitReached rl2 k now).map (fun r => (r.1, r.2.buckets k)) := by
  unfold IsLimitReached
  rw [hb, hm, hr]
  cases rl2.buckets k with
  | none => simp [setBucket]
  | some b =>
    simp only
    cases goDiv (now - b.lastRefillTime) rl2.refillInterval with
    | none => rfl
    | some n =>
      simp only
      split
      · simp [hb]
      · split
        · simp [setBucket]
        · cases goDiv (wrapInt64 (wrapInt64 (b.remainingTokens
            + wrapInt64 (rl2.maxTokens * wrapInt64 n)) - b.remainingTokens)) rl2.maxTokens with
          | none => rfl
          | some q => simp [setBucket]

/-- C3. First request always allowed: for a key without a bucket the call returns false
(allow) and leaves a bucket with `remainingTokens = maxTokens - 1` (the 64-bit value of
that expression, which is `maxTokens - 1` itself for every `int` above the least one) and
`lastRefillTime = now`. -/
theorem first_request_always_allowed (rl : RateLimiter) (id : String) (now : Int)
    (h : rl.buckets id = none) :
    ∃ rl', IsLimitReached rl id now = some (false, rl') ∧
      rl'.buckets id =
        some { remainingTokens := wrapInt64 (rl.maxTokens - 1), lastRefillTime := now } ∧
      (-9223372036854775808 < rl.maxTokens → rl.maxTokens < 9223372036854775808 →
        rl'.buckets id = some { remainingTokens := rl.maxTokens - 1, lastRefillTime := now })
    := by
  refine ⟨_, IsLimitReached_new rl id now h, setBucket_buckets_same _ _ _, fun h0 h1 => ?_⟩
  rw [setBucket_buckets_same, wrapInt64_of_range _ (by omega) (by omega)]

theorem first_request_always_allowed_witness :
    (NewRateLimiter 3 10).buckets "c" = none ∧
    ∃ rl', IsLimitReached (NewRateLimiter 3 10) "c" 7 = some (false, rl') ∧
      rl'.buckets "c" = some ⟨wrapInt64 ((NewRateLimiter 3 10).maxTokens - 1), 7⟩ ∧
      (-9223372036854775808 < (NewRateLimiter 3 10).maxTokens →
        (NewRateLimiter 3 10).maxTokens < 9223372036854775808 →
        rl'.buckets "c" = some ⟨(NewRateLimiter 3 10).maxTokens - 1, 7⟩) :=
  ⟨rfl, first_request_always_allowed (NewRateLimiter 3 10) "c" 7 rfl⟩

/-- C2. Reject leaves state untouched: when `IsLimitReached` returns true the limiter state
after the call is the state before it (the key's bucket and every other bucket); and with
capacity 1 and a 1s interval, calls for "c" at 0s, 0.1s, 0.2s, 1.1s give allow, reject,
reject, allow. -/
theorem reject_leaves_state_untouched (rl rl' : RateLimiter) (id : String) (now : Int)
    (h : IsLimitReached rl id now = some (true, rl')) :
    rl' = rl ∧ (∀ k, rl'.buckets k = rl.buckets k) ∧
    decisions (NewRateLimiter 1 1000000000)
        [("c", 0), ("c", 100000000), ("c", 200000000), ("c", 1100000000)]
      = some [false, true, true, false] := by
  have hrl : rl' = rl := (IsLimitReached_reject rl rl' id now h).1
  subst hrl
  exact ⟨rfl, fun _ => rfl, by decide⟩

theorem reject_leaves_state_untouched_witness :
    IsLimitReached (setBucket (NewRateLimiter 1 10) "c" ⟨0, 0⟩) "c" 5
      = some (true, setBucket (NewRateLimiter 1 10) "c" ⟨0, 0⟩) ∧
    (setBucket (NewRateLimiter 1 10) "c" ⟨0, 0⟩ = setBucket (NewRateLimiter 1 10) "c" ⟨0, 0⟩ ∧
     (∀ k, (setBucket (NewRateLimiter 1 10) "c" ⟨0, 0⟩).buckets k
        = (setBucket (NewRateLimiter 1 10) "c" ⟨0, 0⟩).buckets k) ∧
     decisions (NewRateLimiter 1 1000000000)
        [("c", 0), ("c", 100000000), ("c", 200000000), ("c", 1100000000)]
      = some [false, true, true, false]) :=
  ⟨rfl, reject_leaves_state_untouched _ _ "c" 5 rfl⟩

/-- C11. Buckets live forever and keys are isolated: after `IsLimitReached(k)` the keys of
the map are the previous keys plus `k`, the bucket of every other key is unchanged, and the
decision for `k` (with `k`'s new bucket) is the same in every limiter state that has the
same configuration and the same bucket for `k`. -/
theorem buckets_live_forever_keys_isolated (rl rl' : RateLimiter) (k : String) (now : Int)
    (d : Bool) (h : IsLimitReached rl k now = some (d, rl')) :
    (∀ j, (rl'.buckets j).isSome = true ↔ ((rl.buckets j).isSome = true ∨ j = k)) ∧
    (∀ j, j ≠ k → rl'.buckets j = rl.buckets j) ∧
    (∀ other : RateLimiter, other.maxTokens = rl.maxTokens →
      other.refillInterval = rl.refillInterval → other.buckets k = rl.buckets k →
      ∃ other', IsLimitReached other k now = some (d, other') ∧
        other'.buckets k = rl'.buckets k) := by
  obtain ⟨_, _, hframe⟩ := IsLimitReached_frame rl rl' k now d h
  obtain ⟨b', hb'⟩ := IsLimitReached_key_present rl rl' k now d h
  refine ⟨fun j => ?_, hframe, fun other hm hr hb => ?_⟩
  · by_cases hj : j = k
    · subst hj
      simp [hb']
    · rw [hframe j hj]
      simp [hj]
  · have hc := IsLimitReached_congr other rl k now hm hr hb
    rw [h] at hc
    cases ho : IsLimitReached other k now with
    | none => simp [ho] at hc
    | some r =>
      obtain ⟨d2, other'⟩ := r
      simp only [ho, Option.map_some', Option.some.injEq, Prod.mk.injEq] at hc
      obtain ⟨rfl, hk⟩ := hc
      exact ⟨other', rfl, hk⟩

theorem buckets_live_forever_keys_isolated_witness :
    IsLimitReached exampleState1 "c" 15 = some (false, exampleState2) ∧
    ((∀ j, (exampleState2.buckets j).isSome = true
        ↔ ((exampleState1.buckets j).isSome = true ∨ j = "c")) ∧
    (∀ j, j ≠ "c" → exampleState2.buckets j = exampleState1.buckets j) ∧
    (∀ other : RateLimiter, other.maxTokens = exampleState1.maxTokens →
      other.refillInterval = exampleState1.refillInterval →
      other.buckets "c" = exampleState1.buckets "c" →
      ∃ other', IsLimitReached other "c" 15 = some (false, other') ∧
        other'.buckets "c" = exampleState2.buckets "c")) :=
  ⟨rfl, buckets_live_forever_keys_isolated exampleState1 exampleState2 "c" 15 false rfl⟩

/-! ## The log of a run -/

theorem runCalls_cons_eq {rl fin : RateLimiter} {id : String} {now : Int}
    {cs : List (String × Int)} {es : List Event}
    (h : runCalls rl ((id, now) :: cs) = some (es, fin)) :
    ∃ d rl' es', IsLimitReached rl id now = some (d, rl') ∧ runCalls rl' cs = some (es', fin) ∧
      es = { key := id, time := now, limited := d, after := rl' } :: es' := by
  simp only [runCalls] at h
  cases h1 : IsLimitReached rl id now with
  | none => simp [h1] at h
  | some r =>
    obtain ⟨d, rl'⟩ := r
    simp only [h1] at h
    cases h2 : runCalls rl' cs with
    | none => simp [h2] at h
    | some r2 =>
      obtain ⟨es', fin'⟩ := r2
      simp only [h2, Option.some.injEq, Prod.mk.injEq] at h
      obtain ⟨rfl, rfl⟩ := h
      exact ⟨d, rl', es', rfl, h2, rfl⟩

theorem runCalls_cons_of {rl rl' fin : RateLimiter} {id : String} {now : Int} {d : Bool}
    {cs : List (String × Int)} {es' : List Event}
    (h1 : IsLimitReached rl id now = some (d, rl')) (h2 : runCalls rl' cs = some (es', fin)) :
    runCalls rl ((id, now) :: cs)
      = some ({ key := id, time := now, limited := d, after := rl' } :: es', fin) := by
  simp only [runCalls, h1, h2]

/-- The log lists the calls in order. -/
theorem runCalls_calls (cs : List (String × Int)) :
    ∀ (rl fin : RateLimiter) (es : List Event), runCalls rl cs = some (es, fin) →
      es.map (fun e => (e.key, e.time)) = cs := by
  induction cs with
  | nil =>
    intro rl fin es h
    simp only [runCalls, Option.some.injEq, Prod.mk.injEq] at h
    rw [← h.1]
    rfl
  | cons x cs ih =>
    intro rl fin es h
    obtain ⟨id, now⟩ := x
    obtain ⟨d, rl', es', _, h2, rfl⟩ := runCalls_cons_eq h
    simp [ih rl' fin es' h2]

theorem runCalls_mem_calls {cs : List (String × Int)} {rl fin : RateLimiter} {es : List Event}
    (h : runCalls rl cs = some (es, fin)) {e : Event} (he : e ∈ es) : (e.key, e.time) ∈ cs := by
  rw [← runCalls_calls cs rl fin es h]
  exact List.mem_map_of_mem (fun e => (e.key, e.time)) he

/-- A run never panics when the interval is non-zero. -/
theorem runCalls_isSome (cs : List (String × Int)) :
    ∀ rl : RateLimiter, rl.refillInterval ≠ 0 →
      ∃ es fin, runCalls rl cs = some (es, fin) ∧ fin.maxTokens = rl.maxTokens ∧
        fin.refillInterval = rl.refillInterval := by
  induction cs with
  | nil => intro rl _; exact ⟨[], rl, rfl, rfl, rfl⟩
  | cons x cs ih =>
    intro rl hR
    obtain ⟨id, now⟩ := x
    obtain ⟨d, rl', h1⟩ := IsLimitReached_isSome rl id now hR
    obtain ⟨fm, fr, _⟩ := IsLimitReached_frame _ _ _ _ _ h1
    obtain ⟨es', fin, h2, gm, gr⟩ := ih rl' (by rw [fr]; exact hR)
    exact ⟨_, fin, runCalls_cons_of h1 h2, by rw [gm, fm], by rw [gr, fr]⟩

theorem exampleCalls_run :
    runCalls (NewRateLimiter 1 10) exampleCalls = some (exampleLog, exampleState3) := rfl

/-- C8. Allow never fails: for a limiter built by `NewRateLimiter` with a positive rate and
a positive interval, every run of calls returns, and in the state it reaches every call for
every key and clock reading returns a decision; neither the division by `refillInterval`
nor the division by `maxTokens` has a zero divisor. -/
theorem allow_never_fails (rate perInterval : Int) (hrate : 0 < rate)
    (hinterval : 0 < perInterval) (cs : List (String × Int)) (id : String) (now : Int) :
    ∃ es fin, runCalls (NewRateLimiter rate perInterval) cs = some (es, fin) ∧
      es.length = cs.length ∧
      (∃ d rl', IsLimitReached fin id now = some (d, rl')) ∧
      (∀ a, ∃ q, goDiv a fin.refillInterval = some q) ∧
      (∀ a, ∃ q, goDiv a fin.maxTokens = some q) := by
  obtain ⟨es, fin, hrun, hm, hr⟩ :=
    runCalls_isSome cs (NewRateLimiter rate perInterval) (ne_of_gt hinterval)
  have hR : fin.refillInterval ≠ 0 := by
    rw [hr]
    exact ne_of_gt hinterval
  have hM : fin.maxTokens ≠ 0 := by
    rw [hm]
    exact ne_of_gt hrate
  refine ⟨es, fin, hrun, ?_, IsLimitReached_isSome fin id now hR,
    fun a => ⟨_, goDiv_eq_some a _ hR⟩, fun a => ⟨_, goDiv_eq_some a _ hM⟩⟩
  have := congrArg List.length (runCalls_calls cs _ _ _ hrun)
  simpa using this

theorem allow_never_fails_witness :
    (0 : Int) < 1 ∧ (0 : Int) < 10 ∧
    ∃ es fin, runCalls (NewRateLimiter 1 10) exampleCalls = some (es, fin) ∧
      es.length = exampleCalls.length ∧
      (∃ d rl', IsLimitReached fin "c" 25 = some (d, rl')) ∧
      (∀ a, ∃ q, goDiv a fin.refillInterval = some q) ∧
      (∀ a, ∃ q, goDiv a fin.maxTokens = some q) :=
  ⟨by decide, by decide, allow_never_fails 1 10 (by decide) (by decide) exampleCalls "c" 25⟩

/-! ## The run invariant -/

/-- In the consume branch, from a bucket that satisfies the range invariant and a clock
that has not gone back, `lastRefillTime` is not moved past `now`: `deltaRefills` is 0, or
it is 1 and a whole interval has elapsed. -/
theorem deltaTime64_le (rl : RateLimiter) (b : bucket) (now cur dt : Int)
    (hcap : 1 ≤ rl.maxTokens) (hR : 0 < rl.refillInterval)
    (hr0 : -9223372036854775808 ≤ b.remainingTokens)
    (hr1 : b.remainingTokens < 9223372036854775808)
    (hinv : rl.maxTokens ≤ 9223372036854775808 →
      0 ≤ b.remainingTokens ∧ b.remainingTokens ≤ rl.maxTokens - 1)
    (hL : b.lastRefillTime ≤ now) (hcur : currentTokens64 rl b now = some cur)
    (h1 : 1 ≤ cur) (h2 : cur ≤ rl.maxTokens) (hdt : deltaTime64 rl b cur = some dt) :
    dt ≤ now - b.lastRefillTime := by
  have hm : rl.maxTokens ≠ 0 := by omega
  obtain ⟨hq0, hqlo, _⟩ := tdiv_elapsed now b.lastRefillTime rl.refillInterval hR hL
  have hdiv := goDiv_eq_some (now - b.lastRefillTime) rl.refillInterval (ne_of_gt hR)
  simp only [currentTokens64, tokensAdded64, elapsedIntervals64, hdiv, Option.map_some',
    Option.some.injEq] at hcur
  simp only [deltaTime64, deltaRefills64, goDiv_eq_some _ _ hm, Option.map_some',
    Option.some.injEq] at hdt
  generalize Int.tdiv (now - b.lastRefillTime) rl.refillInterval = q at hq0 hqlo hcur
  have hcr := wrapInt64_range (b.remainingTokens + wrapInt64 (rl.maxTokens * wrapInt64 q))
  rw [hcur] at hcr
  have hd := wrapInt64_range (cur - b.remainingTokens)
  have hcase : (-rl.maxTokens < wrapInt64 (cur - b.remainingTokens) ∧
      wrapInt64 (cur - b.remainingTokens) < rl.maxTokens) ∨
      (wrapInt64 (cur - b.remainingTokens) = rl.maxTokens ∧ b.remainingTokens = 0 ∧
        cur = rl.maxTokens) := by
    by_cases hbig : rl.maxTokens ≤ 9223372036854775808
    · obtain ⟨h0, hle⟩ := hinv hbig
      have hx : wrapInt64 (cur - b.remainingTokens) = cur - b.remainingTokens :=
        wrapInt64_of_range _ (by omega) (by omega)
      rw [hx]
      omega
    · left
      omega
  rcases hcase with ⟨ha, hb'⟩ | ⟨hdm, hrem, hcm⟩
  · rw [tdiv_eq_zero_of_abs_lt _ _ ha hb', wrapInt64_zero, zero_mul, wrapInt64_zero] at hdt
    omega
  · rw [hdm, Int.tdiv_self hm, wrapInt64_one, one_mul] at hdt
    have hle := wrapInt64_le_self rl.refillInterval (by omega)
    have hq1 : 1 ≤ q := by
      by_contra hlt
      have hq : q = 0 := by omega
      rw [hq, hrem, wrapInt64_zero, mul_zero, wrapInt64_zero, add_zero, wrapInt64_zero] at hcur
      omega
    have hRq : 1 * rl.refillInterval ≤ q * rl.refillInterval :=
      Int.mul_le_mul_of_nonneg_right hq1 (le_of_lt hR)
    omega

theorem LogInv_init (cap R : Int) : LogInv cap R [] (NewRateLimiter cap R) :=
  ⟨rfl, rfl, fun _ _ h => by cases h⟩

/-- A bucket created or saturated at `now` satisfies the invariant once the call is logged. -/
theorem BucketInv_fresh (cap : Int) (hcap : 1 ≤ cap) (hist : List Event) (e0 : Event) :
    BucketInv cap (hist ++ [e0])
      { remainingTokens := wrapInt64 (cap - 1), lastRefillTime := e0.time } := by
  refine ⟨(wrapInt64_range _).1, (wrapInt64_range _).2, fun hbig => ?_, e0,
    List.mem_append_right _ (List.mem_singleton_self _), le_refl _⟩
  show 0 ≤ wrapInt64 (cap - 1) ∧ wrapInt64 (cap - 1) ≤ cap - 1
  rw [wrapInt64_of_range _ (by omega) (by omega)]
  omega

/-- One call keeps the invariant when its clock reading is not before any logged one. -/
theorem LogInv_step (cap R : Int) (hcap : 1 ≤ cap) (hR : 0 < R) (hist : List Event)
    (rl rl' : RateLimiter) (id : String) (now : Int) (d : Bool) (hinv : LogInv cap R hist rl)
    (hclk : ∀ e ∈ hist, e.time ≤ now) (h : IsLimitReached rl id now = some (d, rl')) :
    LogInv cap R (hist ++ [{ key := id, time := now, limited := d, after := rl' }]) rl' := by
  obtain ⟨hm, hr, hbk⟩ := hinv
  obtain ⟨fm, fr, fb⟩ := IsLimitReached_frame _ _ _ _ _ h
  have hmono : ∀ b, BucketInv cap hist b →
      BucketInv cap (hist ++ [{ key := id, time := now, limited := d, after := rl' }]) b := by
    intro b hI
    obtain ⟨h0, h1, h2, e, he, hle⟩ := hI
    exact ⟨h0, h1, h2, e, List.mem_append_left _ he, hle⟩
  refine ⟨by rw [fm, hm], by rw [fr, hr], fun c bc hbc => ?_⟩
  by_cases hc : c = id
  · subst hc
    cases hb : rl.buckets c with
    | none =>
      rw [IsLimitReached_new rl c now hb] at h
      simp only [Option.some.injEq, Prod.mk.injEq] at h
      obtain ⟨rfl, rfl⟩ := h
      rw [setBucket_buckets_same, hm] at hbc
      cases hbc
      exact BucketInv_fresh cap hcap hist ⟨c, now, false, _⟩
    | some b =>
      have hIb := hbk c b hb
      obtain ⟨h0, h1, h2, e1, he1, hle1⟩ := hIb
      have hL : b.lastRefillTime ≤ now := le_trans hle1 (hclk e1 he1)
      obtain ⟨cur, hcur, hc0, hc1, hcase⟩ :=
        IsLimitReached_existing rl c now b (by rw [hr]; exact ne_of_gt hR) hb
      rcases hcase with ⟨_, hcall⟩ | ⟨_, _, hcall⟩ | ⟨hge, hle, dt, hdt, hcall⟩
      · rw [hcall] at h
        simp only [Option.some.injEq, Prod.mk.injEq] at h
        obtain ⟨rfl, rfl⟩ := h
        exact hmono _ (hbk c bc hbc)
      · rw [hcall] at h
        simp only [Option.some.injEq, Prod.mk.injEq] at h
        obtain ⟨rfl, rfl⟩ := h
        rw [setBucket_buckets_same, hm] at hbc
        cases hbc
        exact BucketInv_fresh cap hcap hist ⟨c, now, false, _⟩
      · rw [hcall] at h
        simp only [Option.some.injEq, Prod.mk.injEq] at h
        obtain ⟨rfl, rfl⟩ := h
        rw [setBucket_buckets_same] at hbc
        cases hbc
        have hdle := deltaTime64_le rl b now cur dt (by rw [hm]; exact hcap)
          (by rw [hr]; exact hR) h0 h1 (by rw [hm]; exact h2) hL hcur hge hle hdt
        refine ⟨by show -9223372036854775808 ≤ cur - 1; omega,
          by show cur - 1 < 9223372036854775808; omega, fun _ => ?_,
          _, List.mem_append_right _ (List.mem_singleton_self _), ?_⟩
        · show 0 ≤ cur - 1 ∧ cur - 1 ≤ cap - 1
          omega
        · show b.lastRefillTime + dt ≤ now
          omega
  · rw [fb c hc] at hbc
    exact hmono _ (hbk c bc hbc)

/-- A run with non-decreasing clock readings keeps the invariant. -/
theorem LogInv_run (cap R : Int) (hcap : 1 ≤ cap) (hR : 0 < R) (cs : List (String × Int)) :
    ∀ (hist : List Event) (rl fin : RateLimiter) (es : List Event), LogInv cap R hist rl →
      nonDecreasing cs → (∀ e ∈ hist, ∀ x ∈ cs, e.time ≤ x.2) →
      runCalls rl cs = some (es, fin) → LogInv cap R (hist ++ es) fin := by
  induction cs with
  | nil =>
    intro hist rl fin es hinv _ _ h
    simp only [runCalls, Option.some.injEq, Prod.mk.injEq] at h
    obtain ⟨rfl, rfl⟩ := h
    simpa using hinv
  | cons x cs ih =>
    intro hist rl fin es hinv hmono hclk h
    obtain ⟨id, now⟩ := x
    obtain ⟨d, rl', es', h1, h2, rfl⟩ := runCalls_cons_eq h
    obtain ⟨hhead, htail⟩ := List.pairwise_cons.1 hmono
    have hstep := LogInv_step cap R hcap hR hist rl rl' id now d hinv
      (fun e he => hclk e he (id, now) (List.mem_cons_self _ _)) h1
    have := ih (hist ++ [{ key := id, time := now, limited := d, after := rl' }]) rl' fin es'
      hstep htail ?_ h2
    · simpa using this
    · intro e he y hy
      rcases List.mem_append.1 he with hmem | hmem
      · exact hclk e hmem y (List.mem_cons_of_mem _ hy)
      · rw [List.mem_singleton] at hmem
        subst hmem
        exact hhead y hy

/-- The token range read off the log invariant, for a capacity that is a 64-bit `int`. -/
theorem LogInv_range (cap R : Int) (hint : cap < 9223372036854775808) (hist : List Event)
    (rl : RateLimiter) (hinv : LogInv cap R hist rl) (k : String) (b : bucket)
    (hb : rl.buckets k = some b) :
    0 ≤ b.remainingTokens ∧ b.remainingTokens ≤ rl.maxTokens - 1 := by
  obtain ⟨hm, _, hbk⟩ := hinv
  obtain ⟨_, _, h2, _⟩ := hbk k b hb
  rw [hm]
  exact h2 (by omega)

/-- C6. Credit range invariant: for a capacity at least 1 that is a 64-bit `int` and a
positive interval, in every state reached from the empty limiter by calls with
non-decreasing clock readings every bucket has `0 ≤ remainingTokens ≤ maxTokens - 1`; this
still holds after one more call, after which the key's `remainingTokens` lies in
`[0, maxTokens - 1]` when the call is allowed and its bucket is the one from before the
call when it is rejected. -/
theorem credit_range_invariant (cap R : Int) (hcap : 1 ≤ cap)
    (hint : cap < 9223372036854775808) (hR : 0 < R)
    (cs : List (String × Int)) (hmono : nonDecreasing cs) (es : List Event) (fin : RateLimiter)
    (hrun : runCalls (NewRateLimiter cap R) cs = some (es, fin))
    (id : String) (now : Int) (d : Bool) (rl' : RateLimiter) (hnow : ∀ x ∈ cs, x.2 ≤ now)
    (hcall : IsLimitReached fin id now = some (d, rl')) :
    fin.maxTokens = cap ∧ rl'.maxTokens = cap ∧
    (∀ k b, fin.buckets k = some b →
      0 ≤ b.remainingTokens ∧ b.remainingTokens ≤ fin.maxTokens - 1) ∧
    (∀ k b, rl'.buckets k = some b →
      0 ≤ b.remainingTokens ∧ b.remainingTokens ≤ rl'.maxTokens - 1) ∧
    (d = false → ∃ b, rl'.buckets id = some b ∧
      0 ≤ b.remainingTokens ∧ b.remainingTokens ≤ rl'.maxTokens - 1) ∧
    (d = true → ∃ b, fin.buckets id = some b ∧ rl'.buckets id = some b) := by
  have hinv := LogInv_run cap R hcap hR cs [] _ _ _ (LogInv_init cap R) hmono
    (fun _ h => by cases h) hrun
  rw [List.nil_append] at hinv
  have hstep := LogInv_step cap R hcap hR es fin rl' id now d hinv
    (fun e he => hnow _ (runCalls_mem_calls hrun he)) hcall
  refine ⟨hinv.1, hstep.1, LogInv_range cap R hint _ _ hinv, LogInv_range cap R hint _ _ hstep,
    ?_, ?_⟩
  · intro _
    obtain ⟨b, hb⟩ := IsLimitReached_key_present fin rl' id now d hcall
    exact ⟨b, hb, LogInv_range cap R hint _ _ hstep id b hb⟩
  · intro hd
    subst hd
    obtain ⟨rfl, b, hb⟩ := IsLimitReached_reject fin rl' id now hcall
    exact ⟨b, hb, hb⟩

theorem credit_range_invariant_witness :
    (1 : Int) ≤ 1 ∧ (1 : Int) < 9223372036854775808 ∧ (0 : Int) < 10 ∧
    nonDecreasing exampleCalls ∧
    runCalls (NewRateLimiter 1 10) exampleCalls = some (exampleLog, exampleState3) ∧
    (∀ x ∈ exampleCalls, x.2 ≤ 25) ∧
    IsLimitReached exampleState3 "c" 25 = some (true, exampleState3) ∧
    (exampleState3.maxTokens = 1 ∧ exampleState3.maxTokens = 1 ∧
    (∀ k b, exampleState3.buckets k = some b →
      0 ≤ b.remainingTokens ∧ b.remainingTokens ≤ exampleState3.maxTokens - 1) ∧
    (∀ k b, exampleState3.buckets k = some b →
      0 ≤ b.remainingTokens ∧ b.remainingTokens ≤ exampleState3.maxTokens - 1) ∧
    (true = false → ∃ b, exampleState3.buckets "c" = some b ∧
      0 ≤ b.remainingTokens ∧ b.remainingTokens ≤ exampleState3.maxTokens - 1) ∧
    (true = true → ∃ b, exampleState3.buckets "c" = some b ∧
      exampleState3.buckets "c" = some b)) :=
  ⟨by decide, by decide, by decide, by decide, rfl, by decide, rfl,
    credit_range_invariant 1 10 (by decide) (by decide) (by decide) exampleCalls (by decide)
      exampleLog exampleState3 rfl "c" 25 true exampleState3 (by decide) rfl⟩

theorem floor_div_of_pos (a R : Int) (hR : 0 < R) : ⌊(a : ℚ) / (R : ℚ)⌋ = a / R := by
  obtain ⟨d, rfl⟩ := Int.eq_ofNat_of_zero_le (le_of_lt hR)
  exact_mod_cast Rat.floor_intCast_div_natCast a d

/-- C16. Elapsed intervals are a non-negative floor: for capacity at least 1 and a positive
interval, in every state reached from the empty limiter by calls with non-decreasing clock
readings every bucket has `lastRefillTime` at most some past reading, hence at most the
reading `now` of the next call, and the value `int((now - lastRefillTime) / refillInterval)`
of that call is non-negative and is the floor of the quotient (the conversion to `int`
keeps it whenever the elapsed time is a 64-bit duration). -/
theorem elapsed_intervals_nonneg_floor (cap R : Int) (hcap : 1 ≤ cap) (hR : 0 < R)
    (cs : List (String × Int)) (hmono : nonDecreasing cs) (es : List Event) (fin : RateLimiter)
    (hrun : runCalls (NewRateLimiter cap R) cs = some (es, fin)) (now : Int)
    (hnow : ∀ x ∈ cs, x.2 ≤ now) (k : String) (b : bucket) (hb : fin.buckets k = some b) :
    (∃ x ∈ cs, b.lastRefillTime ≤ x.2) ∧ b.lastRefillTime ≤ now ∧
    ∃ n, elapsedIntervals fin b now = some n ∧ 0 ≤ n ∧
      n = ⌊((now - b.lastRefillTime : Int) : ℚ) / (R : ℚ)⌋ ∧
      n * R ≤ now - b.lastRefillTime ∧ now - b.lastRefillTime < (n + 1) * R ∧
      (now - b.lastRefillTime < 9223372036854775808 →
        elapsedIntervals64 fin b now = some n) := by
  have hinv := LogInv_run cap R hcap hR cs [] _ _ _ (LogInv_init cap R) hmono
    (fun _ h => by cases h) hrun
  rw [List.nil_append] at hinv
  obtain ⟨_, hr, hbk⟩ := hinv
  obtain ⟨_, _, _, e, he, hle⟩ := hbk k b hb
  have hmem := runCalls_mem_calls hrun he
  have hL : b.lastRefillTime ≤ now := le_trans hle (hnow _ hmem)
  obtain ⟨hn0, hlo, hhi⟩ := tdiv_elapsed now b.lastRefillTime R hR hL
  have hdiv : goDiv (now - b.lastRefillTime) fin.refillInterval
      = some (Int.tdiv (now - b.lastRefillTime) R) := by
    rw [hr]
    exact goDiv_eq_some _ _ (ne_of_gt hR)
  refine ⟨⟨_, hmem, hle⟩, hL, Int.tdiv (now - b.lastRefillTime) R, hdiv, hn0, ?_, hlo, hhi,
    fun hfit => ?_⟩
  · rw [floor_div_of_pos _ _ hR]
    exact Int.tdiv_eq_ediv (by omega) (le_of_lt hR)
  · have hnR : Int.tdiv (now - b.lastRefillTime) R * 1
        ≤ Int.tdiv (now - b.lastRefillTime) R * R :=
      Int.mul_le_mul_of_nonneg_left (by omega) hn0
    simp only [elapsedIntervals64, hdiv, Option.map_some']
    rw [wrapInt64_of_range _ (by omega) (by omega)]

theorem elapsed_intervals_nonneg_floor_witness :
    (1 : Int) ≤ 1 ∧ (0 : Int) < 10 ∧ nonDecreasing exampleCalls ∧
    runCalls (NewRateLimiter 1 10) exampleCalls = some (exampleLog, exampleState3) ∧
    (∀ x ∈ exampleCalls, x.2 ≤ 47) ∧ exampleState3.buckets "c" = some ⟨0, 20⟩ ∧
    ((∃ x ∈ exampleCalls, (⟨0, 20⟩ : bucket).lastRefillTime ≤ x.2) ∧
    (⟨0, 20⟩ : bucket).lastRefillTime ≤ 47 ∧
    ∃ n, elapsedIntervals exampleState3 ⟨0, 20⟩ 47 = some n ∧ 0 ≤ n ∧
      n = ⌊((47 - (⟨0, 20⟩ : bucket).lastRefillTime : Int) : ℚ) / ((10 : Int) : ℚ)⌋ ∧
      n * 10 ≤ 47 - (⟨0, 20⟩ : bucket).lastRefillTime ∧
      47 - (⟨0, 20⟩ : bucket).lastRefillTime < (n + 1) * 10 ∧
      (47 - (⟨0, 20⟩ : bucket).lastRefillTime < 9223372036854775808 →
        elapsedIntervals64 exampleState3 ⟨0, 20⟩ 47 = some n)) :=
  ⟨by decide, by decide, by decide, rfl, by decide, by decide,
    elapsed_intervals_nonneg_floor 1 10 (by decide) (by decide) exampleCalls (by decide)
      exampleLog exampleState3 rfl 47 (by decide) "c" ⟨0, 20⟩ (by decide)⟩

/-! ## Bursts, zero interval, 64-bit range -/

theorem decisions_cons (rl rl' : RateLimiter) (id : String) (now : Int) (d : Bool)
    (cs : List (String × Int)) (h : IsLimitReached rl id now = some (d, rl')) :
    decisions rl ((id, now) :: cs) = (decisions rl' cs).map (fun ds => d :: ds) := by
  unfold decisions
  simp only [runCalls, h]
  cases runCalls rl' cs with
  | none => rfl
  | some r => rfl

/-- A call at the clock reading of the bucket's `lastRefillTime`, with `r` tokens left: no
interval has elapsed, so it is rejected when `r = 0` and consumes one token otherwise. -/
theorem IsLimitReached_same_reading (rl : RateLimiter) (k : String) (now r : Int)
    (hcap : 1 ≤ rl.maxTokens) (hint : rl.maxTokens < 9223372036854775808)
    (hR : rl.refillInterval ≠ 0) (hb : rl.buckets k = some ⟨r, now⟩) (h0 : 0 ≤ r)
    (h1 : r ≤ rl.maxTokens - 1) :
    (r = 0 ∧ IsLimitReached rl k now = some (true, rl)) ∨
    (1 ≤ r ∧ IsLimitReached rl k now = some (false, setBucket rl k ⟨r - 1, now⟩)) := by
  have hm : rl.maxTokens ≠ 0 := by omega
  have hwr : wrapInt64 r = r := wrapInt64_of_range _ (by omega) (by omega)
  obtain ⟨cur, hcur, _, _, hcase⟩ := IsLimitReached_existing rl k now ⟨r, now⟩ hR hb
  simp only [currentTokens64, tokensAdded64, elapsedIntervals64, sub_self,
    goDiv_eq_some _ _ hR, Int.zero_tdiv, Option.map_some', wrapInt64_zero, mul_zero, add_zero,
    hwr, Option.some.injEq] at hcur
  subst hcur
  rcases hcase with ⟨hlt, hcall⟩ | ⟨_, hgt, _⟩ | ⟨hge, _, dt, hdt, hcall⟩
  · exact Or.inl ⟨by omega, hcall⟩
  · omega
  · simp only [deltaTime64, deltaRefills64, sub_self, wrapInt64_zero, goDiv_eq_some _ _ hm,
      Int.zero_tdiv, Option.map_some', zero_mul, Option.some.injEq] at hdt
    subst hdt
    rw [add_zero] at hcall
    exact Or.inr ⟨hge, hcall⟩

/-- Repeated calls at the clock reading of the bucket's `lastRefillTime`: with `r` tokens
left, call `j` (counted from 0) is rejected exactly when `r ≤ j`. -/
theorem decisions_same_reading (k : String) (now : Int) (m : Nat) :
    ∀ (rl : RateLimiter) (r : Int), 1 ≤ rl.maxTokens → rl.maxTokens < 9223372036854775808 →
      0 < rl.refillInterval → rl.buckets k = some ⟨r, now⟩ → 0 ≤ r → r ≤ rl.maxTokens - 1 →
      decisions rl (List.replicate m (k, now))
        = some ((List.range m).map (fun j : Nat => decide (r ≤ (j : Int)))) := by
  induction m with
  | zero => intro rl r _ _ _ _ _ _; rfl
  | succ m ih =>
    intro rl r hcap hint hR hb h0 h1
    rw [List.replicate_succ, List.range_succ_eq_map, List.map_cons, List.map_map]
    rcases IsLimitReached_same_reading rl k now r hcap hint (ne_of_gt hR) hb h0 h1 with
      ⟨hz, hcall⟩ | ⟨hpos, hcall⟩
    · subst hz
      rw [decisions_cons _ _ _ _ _ _ hcall, ih rl 0 hcap hint hR hb h0 h1]
      simp
    · rw [decisions_cons _ _ _ _ _ _ hcall,
        ih (setBucket rl k ⟨r - 1, now⟩) (r - 1) hcap hint hR (setBucket_buckets_same _ _ _)
          (by omega) (show r - 1 ≤ rl.maxTokens - 1 by omega)]
      simp only [Option.map_some', Option.some.injEq, List.cons.injEq, Function.comp]
      refine ⟨?_, List.map_congr_left (fun j _ => ?_)⟩
      · symm
        rw [decide_eq_false_iff_not]
        simp only [Nat.cast_zero]
        omega
      · show decide (r - 1 ≤ (j : Int)) = decide (r ≤ ((j + 1 : Nat) : Int))
        rw [decide_eq_decide]
        push_cast
        omega

/-- C17. Burst size equals capacity: for a capacity at least 1 that is a 64-bit `int`, a
positive interval and a key without a bucket, `n` calls of that key at one clock reading
all return, and the `i`-th call (counted from 1) is allowed exactly when `i ≤ maxTokens`. -/
theorem burst_size_equals_capacity (rl : RateLimiter) (k : String) (now : Int) (n : Nat)
    (hcap : 1 ≤ rl.maxTokens) (hint : rl.maxTokens < 9223372036854775808)
    (hR : 0 < rl.refillInterval) (hk : rl.buckets k = none) :
    decisions rl (List.replicate n (k, now))
      = some ((List.range n).map (fun i : Nat => decide (¬ ((i : Int) + 1 ≤ rl.maxTokens)))) := by
  cases n with
  | zero => rfl
  | succ m =>
    have hcall : IsLimitReached rl k now
        = some (false, setBucket rl k ⟨rl.maxTokens - 1, now⟩) := by
      rw [IsLimitReached_new rl k now hk, wrapInt64_of_range _ (by omega) (by omega)]
    rw [List.replicate_succ, List.range_succ_eq_map, List.map_cons, List.map_map,
      decisions_cons _ _ _ _ _ _ hcall,
      decisions_same_reading k now m (setBucket rl k ⟨rl.maxTokens - 1, now⟩)
        (rl.maxTokens - 1) hcap hint hR (setBucket_buckets_same _ _ _) (by omega) (le_refl _)]
    simp only [Option.map_some', Option.some.injEq, List.cons.injEq, Function.comp]
    refine ⟨?_, List.map_congr_left (fun j _ => ?_)⟩
    · symm
      rw [decide_eq_false_iff_not]
      simp only [Nat.cast_zero]
      omega
    · show decide (rl.maxTokens - 1 ≤ (j : Int))
        = decide (¬ (((j + 1 : Nat) : Int) + 1 ≤ rl.maxTokens))
      rw [decide_eq_decide]
      push_cast
      omega

theorem burst_size_equals_capacity_witness :
    (1 : Int) ≤ (NewRateLimiter 2 10).maxTokens ∧
    (NewRateLimiter 2 10).maxTokens < 9223372036854775808 ∧
    (0 : Int) < (NewRateLimiter 2 10).refillInterval ∧
    (NewRateLimiter 2 10).buckets "c" = none ∧
    decisions (NewRateLimiter 2 10) (List.replicate 4 ("c", 7))
      = some ((List.range 4).map
          (fun i : Nat => decide (¬ ((i : Int) + 1 ≤ (NewRateLimiter 2 10).maxTokens)))) :=
  ⟨by decide, by decide, by decide, by decide,
    burst_size_equals_capacity (NewRateLimiter 2 10) "c" 7 4 (by decide) (by decide)
      (by decide) (by decide)⟩

/-- C18. Zero interval is not guarded: `NewRateLimiter` stores `rate` and `perInterval` as
given, and in a limiter built with `perInterval = 0`, for every rate, key and clock
readings, the first call of a key is allowed and the second call of that key divides by the
zero `refillInterval`, so it returns no decision. -/
theorem zero_interval_not_guarded (rate perInterval : Int) (key : String) (t1 t2 : Int) :
    (NewRateLimiter rate perInterval).maxTokens = rate ∧
    (NewRateLimiter rate perInterval).refillInterval = perInterval ∧
    (∃ rl1 b, IsLimitReached (NewRateLimiter rate 0) key t1 = some (false, rl1) ∧
      rl1.buckets key = some b ∧ elapsedIntervals rl1 b t2 = none ∧
      IsLimitReached rl1 key t2 = none) ∧
    decisions (NewRateLimiter rate 0) [(key, t1), (key, t2)] = none := by
  have h1 : IsLimitReached (NewRateLimiter rate 0) key t1 = some (false,
      setBucket (NewRateLimiter rate 0) key ⟨wrapInt64 (rate - 1), t1⟩) := rfl
  have h2 : IsLimitReached (setBucket (NewRateLimiter rate 0) key
      ⟨wrapInt64 (rate - 1), t1⟩) key t2 = none := by
    simp [IsLimitReached, setBucket, NewRateLimiter, goDiv]
  refine ⟨rfl, rfl, ⟨_, _, h1, setBucket_buckets_same _ _ _, ?_, h2⟩, ?_⟩
  · simp [elapsedIntervals, setBucket, NewRateLimiter, goDiv]
  · simp [decisions, runCalls, h1, h2]

/-- C19. No integer overflow in the shipped configuration: with `maxTokens = 1000` and
`refillInterval = 10^9` ns, for every bucket with `0 ≤ remainingTokens ≤ 999` and every
elapsed duration that is a non-negative signed 64-bit count, `maxTokens * elapsedIntervals`
and `remainingTokens + maxTokens * elapsedIntervals` lie in the signed 64-bit range, and the
64-bit wrapping computation of lines 46-48 gives the exact integers. -/
theorem no_overflow_in_shipped_configuration (rl : RateLimiter) (b : bucket) (now : Int)
    (hm : rl.maxTokens = (NewRateLimiter 1000 1000000000).maxTokens)
    (hr : rl.refillInterval = (NewRateLimiter 1000 1000000000).refillInterval)
    (h0 : 0 ≤ b.remainingTokens) (h1 : b.remainingTokens ≤ 999)
    (he0 : 0 ≤ now - b.lastRefillTime) (he1 : now - b.lastRefillTime < 9223372036854775808) :
    ∃ n, elapsedIntervals rl b now = some n ∧
      -9223372036854775808 ≤ rl.maxTokens * n ∧ rl.maxTokens * n < 9223372036854775808 ∧
      -9223372036854775808 ≤ b.remainingTokens + rl.maxTokens * n ∧
      b.remainingTokens + rl.maxTokens * n < 9223372036854775808 ∧
      elapsedIntervals64 rl b now = some n ∧
      tokensAdded64 rl b now = some (rl.maxTokens * n) ∧
      currentTokens64 rl b now = some (b.remainingTokens + rl.maxTokens * n) ∧
      currentTokens64 rl b now = available rl b now := by
  have hm' : rl.maxTokens = 1000 := hm
  have hr' : rl.refillInterval = 1000000000 := hr
  have hdiv : goDiv (now - b.lastRefillTime) rl.refillInterval
      = some ((now - b.lastRefillTime) / 1000000000) := by
    rw [hr', goDiv_eq_some _ _ (by decide), Int.tdiv_eq_ediv he0 (by decide)]
  have hq0 : 0 ≤ (now - b.lastRefillTime) / 1000000000 := by omega
  have hq1 : (now - b.lastRefillTime) / 1000000000 ≤ 9223372036 := by omega
  generalize (now - b.lastRefillTime) / 1000000000 = q at hdiv hq0 hq1
  have hw1 : wrapInt64 q = q := wrapInt64_of_range _ (by omega) (by omega)
  have hw2 : wrapInt64 (1000 * q) = 1000 * q := wrapInt64_of_range _ (by omega) (by omega)
  have hw3 : wrapInt64 (b.remainingTokens + 1000 * q) = b.remainingTokens + 1000 * q :=
    wrapInt64_of_range _ (by omega) (by omega)
  refine ⟨q, hdiv, ?_, ?_, ?_, ?_, ?_, ?_, ?_, ?_⟩
  · rw [hm']; omega
  · rw [hm']; omega
  · rw [hm']; omega
  · rw [hm']; omega
  · simp only [elapsedIntervals64, hdiv, Option.map_some', hw1]
  · simp only [tokensAdded64, elapsedIntervals64, hdiv, Option.map_some', hw1, hm', hw2]
  · simp only [currentTokens64, tokensAdded64, elapsedIntervals64, hdiv, Option.map_some', hw1,
      hm', hw2, hw3]
  · simp only [currentTokens64, tokensAdded64, elapsedIntervals64, available, elapsedIntervals,
      hdiv, Option.map_some', hw1, hm', hw2, hw3]

theorem no_overflow_in_shipped_configuration_witness :
    (NewRateLimiter 1000 1000000000).maxTokens = (NewRateLimiter 1000 1000000000).maxTokens ∧
    (NewRateLimiter 1000 1000000000).refillInterval
      = (NewRateLimiter 1000 1000000000).refillInterval ∧
    (0 : Int) ≤ (⟨999, 0⟩ : bucket).remainingTokens ∧
    (⟨999, 0⟩ : bucket).remainingTokens ≤ 999 ∧
    (0 : Int) ≤ 9223372036854775807 - (⟨999, 0⟩ : bucket).lastRefillTime ∧
    9223372036854775807 - (⟨999, 0⟩ : bucket).lastRefillTime < 9223372036854775808 ∧
    ∃ n, elapsedIntervals (NewRateLimiter 1000 1000000000) ⟨999, 0⟩ 9223372036854775807
        = some n ∧
      -9223372036854775808 ≤ (NewRateLimiter 1000 1000000000).maxTokens * n ∧
      (NewRateLimiter 1000 1000000000).maxTokens * n < 9223372036854775808 ∧
      -9223372036854775808
        ≤ (⟨999, 0⟩ : bucket).remainingTokens + (NewRateLimiter 1000 1000000000).maxTokens * n ∧
      (⟨999, 0⟩ : bucket).remainingTokens + (NewRateLimiter 1000 1000000000).maxTokens * n
        < 9223372036854775808 ∧
      elapsedIntervals64 (NewRateLimiter 1000 1000000000) ⟨999, 0⟩ 9223372036854775807
        = some n ∧
      tokensAdded64 (NewRateLimiter 1000 1000000000) ⟨999, 0⟩ 9223372036854775807
        = some ((NewRateLimiter 1000 1000000000).maxTokens * n) ∧
      currentTokens64 (NewRateLimiter 1000 1000000000) ⟨999, 0⟩ 9223372036854775807
        = some ((⟨999, 0⟩ : bucket).remainingTokens
            + (NewRateLimiter 1000 1000000000).maxTokens * n) ∧
      currentTokens64 (NewRateLimiter 1000 1000000000) ⟨999, 0⟩ 9223372036854775807
        = available (NewRateLimiter 1000 1000000000) ⟨999, 0⟩ 9223372036854775807 :=
  ⟨rfl, rfl, by decide, by decide, by decide, by decide,
    no_overflow_in_shipped_configuration (NewRateLimiter 1000 1000000000) ⟨999, 0⟩
      9223372036854775807 rfl rfl (by decide) (by decide) (by decide) (by decide)⟩

/-! ## The consume step -/

/-- The claim C5 as stated fails for a bucket outside the range of the data model: with
`maxTokens = 2^62`, a one-second interval, `remainingTokens = -2^63` and three elapsed
intervals, `available = 2^62` lies in `[1, maxTokens]`, yet the 64-bit `deltaRefills` is
`-1`, not 3, and `lastRefillTime` moves back one interval instead of forward three. -/
theorem consume_step_counterexample :
    (1 : Int) ≤ (setBucket largeLimiter "c" ⟨-9223372036854775808, 0⟩).maxTokens ∧
    (setBucket largeLimiter "c" ⟨-9223372036854775808, 0⟩).buckets "c"
      = some ⟨-9223372036854775808, 0⟩ ∧
    elapsedIntervals (setBucket largeLimiter "c" ⟨-9223372036854775808, 0⟩)
      ⟨-9223372036854775808, 0⟩ 3000000000 = some 3 ∧
    available (setBucket largeLimiter "c" ⟨-9223372036854775808, 0⟩)
      ⟨-9223372036854775808, 0⟩ 3000000000 = some 4611686018427387904 ∧
    (1 : Int) ≤ 4611686018427387904 ∧
    (4611686018427387904 : Int)
      ≤ (setBucket largeLimiter "c" ⟨-9223372036854775808, 0⟩).maxTokens ∧
    deltaRefills64 (setBucket largeLimiter "c" ⟨-9223372036854775808, 0⟩)
      ⟨-9223372036854775808, 0⟩ 4611686018427387904 = some (-1) ∧
    (IsLimitReached (setBucket largeLimiter "c" ⟨-9223372036854775808, 0⟩) "c"
        3000000000).map (fun r => (r.1, r.2.buckets "c"))
      = some (false, some ⟨4611686018427387903, -1000000000⟩) ∧
    (-1000000000 : Int) ≠ 0 + 3 * 1000000000 := by
  decide

/-- C5 (amended). Consume step: for a capacity at least 1 and a refill interval that are
64-bit `int`s, an existing bucket with `0 ≤ remainingTokens ≤ maxTokens - 1` and a clock
reading such that `1 ≤ available ≤ maxTokens`, the 64-bit `currentTokens` is `available`,
the call returns false, sets `remainingTokens = available - 1` and moves `lastRefillTime`
forward by exactly `elapsedIntervals * refillInterval`; the code's `deltaRefills` is
`elapsedIntervals`. -/
theorem consume_step (rl : RateLimiter) (id : String) (now : Int) (b : bucket) (n : Int)
    (hcap : 1 ≤ rl.maxTokens) (hint : rl.maxTokens < 9223372036854775808)
    (hR0 : -9223372036854775808 ≤ rl.refillInterval)
    (hR1 : rl.refillInterval < 9223372036854775808) (hb : rl.buckets id = some b)
    (h0 : 0 ≤ b.remainingTokens) (hr : b.remainingTokens ≤ rl.maxTokens - 1)
    (hn : elapsedIntervals rl b now = some n)
    (h1 : 1 ≤ b.remainingTokens + rl.maxTokens * n)
    (h2 : b.remainingTokens + rl.maxTokens * n ≤ rl.maxTokens) :
    currentTokens64 rl b now = some (b.remainingTokens + rl.maxTokens * n) ∧
    deltaRefills64 rl b (b.remainingTokens + rl.maxTokens * n) = some n ∧
    ∃ rl', IsLimitReached rl id now = some (false, rl') ∧
      rl'.buckets id = some
        { remainingTokens := b.remainingTokens + rl.maxTokens * n - 1
          lastRefillTime := b.lastRefillTime + n * rl.refillInterval } ∧
      ∀ k, k ≠ id → rl'.buckets k = rl.buckets k := by
  have hm : rl.maxTokens ≠ 0 := by omega
  have hR : rl.refillInterval ≠ 0 := (goDiv_some_ne_zero hn).1
  have hn0 : 0 ≤ n := by
    by_contra hlt
    have : rl.maxTokens * n ≤ rl.maxTokens * (-1) :=
      Int.mul_le_mul_of_nonneg_left (by omega) (by omega)
    omega
  have hn1 : n ≤ 1 := by
    by_contra hgt
    have : rl.maxTokens * 2 ≤ rl.maxTokens * n :=
      Int.mul_le_mul_of_nonneg_left (by omega) (by omega)
    omega
  have hwm : wrapInt64 rl.maxTokens = rl.maxTokens :=
    wrapInt64_of_range _ (by omega) (by omega)
  have hwr : wrapInt64 b.remainingTokens = b.remainingTokens :=
    wrapInt64_of_range _ (by omega) (by omega)
  have hwR : wrapInt64 rl.refillInterval = rl.refillInterval :=
    wrapInt64_of_range _ hR0 hR1
  have hdiv : goDiv (now - b.lastRefillTime) rl.refillInterval = some n := hn
  have hcur : currentTokens64 rl b now = some (b.remainingTokens + rl.maxTokens * n) := by
    rcases (show n = 0 ∨ n = 1 by omega) with rfl | rfl
    · simp [currentTokens64, tokensAdded64, elapsedIntervals64, hdiv, wrapInt64_zero, hwr]
    · have hz : b.remainingTokens = 0 := by omega
      simp [currentTokens64, tokensAdded64, elapsedIntervals64, hdiv, wrapInt64_one, hwm, hz]
  have hdr : deltaRefills64 rl b (b.remainingTokens + rl.maxTokens * n) = some n := by
    rcases (show n = 0 ∨ n = 1 by omega) with rfl | rfl
    · simp [deltaRefills64, goDiv_eq_some _ _ hm, wrapInt64_zero]
    · simp [deltaRefills64, goDiv_eq_some _ _ hm, hwm, Int.tdiv_self hm, wrapInt64_one]
  have hdt : deltaTime64 rl b (b.remainingTokens + rl.maxTokens * n)
      = some (n * rl.refillInterval) := by
    rcases (show n = 0 ∨ n = 1 by omega) with rfl | rfl
    · simp only [deltaTime64, hdr, Option.map_some', zero_mul, wrapInt64_zero]
    · simp only [deltaTime64, hdr, Option.map_some', one_mul, hwR]
  refine ⟨hcur, hdr, ?_⟩
  obtain ⟨cur, hcur', _, _, hcase⟩ := IsLimitReached_existing rl id now b hR hb
  rw [hcur] at hcur'
  cases hcur'
  rcases hcase with ⟨hlt, _⟩ | ⟨_, hgt, _⟩ | ⟨_, _, dt, hdt', hcall⟩
  · omega
  · omega
  · rw [hdt] at hdt'
    cases hdt'
    exact ⟨_, hcall, setBucket_buckets_same _ _ _,
      fun k hk => setBucket_buckets_other _ _ _ _ hk⟩

theorem consume_step_witness :
    (1 : Int) ≤ exampleState1.maxTokens ∧ exampleState1.maxTokens < 9223372036854775808 ∧
    -9223372036854775808 ≤ exampleState1.refillInterval ∧
    exampleState1.refillInterval < 9223372036854775808 ∧
    exampleState1.buckets "c" = some ⟨0, 0⟩ ∧ (0 : Int) ≤ (⟨0, 0⟩ : bucket).remainingTokens ∧
    (⟨0, 0⟩ : bucket).remainingTokens ≤ exampleState1.maxTokens - 1 ∧
    elapsedIntervals exampleState1 ⟨0, 0⟩ 17 = some 1 ∧
    1 ≤ (⟨0, 0⟩ : bucket).remainingTokens + exampleState1.maxTokens * 1 ∧
    (⟨0, 0⟩ : bucket).remainingTokens + exampleState1.maxTokens * 1
      ≤ exampleState1.maxTokens ∧
    (currentTokens64 exampleState1 ⟨0, 0⟩ 17
      = some ((⟨0, 0⟩ : bucket).remainingTokens + exampleState1.maxTokens * 1) ∧
    deltaRefills64 exampleState1 ⟨0, 0⟩
      ((⟨0, 0⟩ : bucket).remainingTokens + exampleState1.maxTokens * 1) = some 1 ∧
    ∃ rl', IsLimitReached exampleState1 "c" 17 = some (false, rl') ∧
      rl'.buckets "c" = some
        ⟨(⟨0, 0⟩ : bucket).remainingTokens + exampleState1.maxTokens * 1 - 1,
          (⟨0, 0⟩ : bucket).lastRefillTime + 1 * exampleState1.refillInterval⟩ ∧
      ∀ k, k ≠ "c" → rl'.buckets k = exampleState1.buckets k) :=
  ⟨by decide, by decide, by decide, by decide, by decide, by decide, by decide, by decide,
    by decide, by decide,
    consume_step exampleState1 "c" 17 ⟨0, 0⟩ 1 (by decide) (by decide) (by decide) (by decide)
      (by decide) (by decide) (by decide) (by decide) (by decide) (by decide)⟩

/-! ## Inputs on which the code departs from the documented behaviour -/

/-- C1. Capacity bound, evaluated at capacity 1, interval 10: calls of "c" at 0, 15 and 20
are all allowed, so the window `[15, 25)` opened by the allowed call at 15 holds two allowed
calls, more than the capacity: the call at 20 is refilled from `lastRefillTime = 10`, not
from the last request at 15. The same decisions come out with a 10s interval and calls at
0s, 15s and 20s. -/
theorem capacity_bound_sliding_window_counterexample :
    (1 : Int) ≤ 1 ∧ (0 : Int) < 10 ∧ nonDecreasing [("c", 0), ("c", 15), ("c", 20)] ∧
    decisions (NewRateLimiter 1 10) [("c", 0), ("c", 15), ("c", 20)]
      = some [false, false, false] ∧
    bucketAfter (NewRateLimiter 1 10) [("c", 0), ("c", 15)] "c" = some ⟨0, 10⟩ ∧
    (runCalls (NewRateLimiter 1 10) [("c", 0), ("c", 15), ("c", 20)]).map
        (fun r => allowedIn "c" 15 (15 + 10) r.1) = some 2 ∧
    decisions (NewRateLimiter 1 10000000000)
        [("c", 0), ("c", 15000000000), ("c", 20000000000)]
      = some [false, false, false] ∧
    ¬ slidingWindowBound 1 10 [("c", 0), ("c", 15), ("c", 20)] := by
  refine ⟨by decide, by decide, by decide, by decide, by decide, by decide, by decide, ?_⟩
  intro h
  have h2 := h exampleLog exampleState3 exampleCalls_run ⟨"c", 15, false, exampleState2⟩
    (List.mem_cons_of_mem _ (List.mem_cons_self _ _)) rfl
  revert h2
  decide

/-- C4. Saturation, evaluated at `maxTokens = 2^62` and a one-second interval: after a first
call at 0 the bucket is `(2^62 - 1, 0)`; at 2s two intervals have elapsed and
`available = 2^62 - 1 + 2^63 > maxTokens`, but `maxTokens * 2` wraps to `-2^63`,
`currentTokens` is `-2^62 - 1`, and the call is rejected with the bucket unchanged instead
of saturating to `(maxTokens - 1, now)`. -/
theorem saturation_failing_input :
    bucketAfter largeLimiter [("c", 0)] "c" = some ⟨4611686018427387903, 0⟩ ∧
    largeLimiter1.buckets "c" = some ⟨4611686018427387903, 0⟩ ∧
    available largeLimiter1 ⟨4611686018427387903, 0⟩ 2000000000
      = some 13835058055282163711 ∧
    (13835058055282163711 : Int) > largeLimiter1.maxTokens ∧
    tokensAdded64 largeLimiter1 ⟨4611686018427387903, 0⟩ 2000000000
      = some (-9223372036854775808) ∧
    currentTokens64 largeLimiter1 ⟨4611686018427387903, 0⟩ 2000000000
      = some (-4611686018427387905) ∧
    (IsLimitReached largeLimiter1 "c" 2000000000).map (fun r => (r.1, r.2.buckets "c"))
      = some (true, some ⟨4611686018427387903, 0⟩) ∧
    decisions largeLimiter [("c", 0), ("c", 2000000000)] = some [false, true] := by
  decide

/-- C13. Exact rejection condition, evaluated at `maxTokens = 2^62` and a one-second
interval: the bucket `(2^62 - 1, 0)` reached by a first call at 0 is in range and
`now = 2s` is after `lastRefillTime`, yet the call returns true although
`remainingTokens` is not 0 and two whole intervals have elapsed: `maxTokens * 2` wraps to
`-2^63`. The same happens with capacity 1000 and a 1ns interval once the bucket has been
idle for 9223372036854776 ns (about 107 days). -/
theorem exact_rejection_condition_failing_input :
    (1 : Int) ≤ largeLimiter1.maxTokens ∧ (0 : Int) < largeLimiter1.refillInterval ∧
    bucketAfter largeLimiter [("c", 0)] "c" = some ⟨4611686018427387903, 0⟩ ∧
    largeLimiter1.buckets "c" = some ⟨4611686018427387903, 0⟩ ∧
    (0 : Int) ≤ 4611686018427387903 ∧
    (4611686018427387903 : Int) ≤ largeLimiter1.maxTokens - 1 ∧
    (0 : Int) ≤ 2000000000 ∧
    tokensAdded64 largeLimiter1 ⟨4611686018427387903, 0⟩ 2000000000
      = some (-9223372036854775808) ∧
    (IsLimitReached largeLimiter1 "c" 2000000000).map Prod.fst = some true ∧
    ¬ ((4611686018427387903 : Int) = 0 ∧
      (2000000000 : Int) - 0 < largeLimiter1.refillInterval) ∧
    bucketAfter (NewRateLimiter 1000 1) [("c", 0)] "c" = some ⟨999, 0⟩ ∧
    decisions (NewRateLimiter 1000 1) [("c", 0), ("c", 9223372036854776)]
      = some [false, true] := by
  decide

/-- C14. Full refill after an idle interval, evaluated at `maxTokens = 2^62` and a
one-second interval from the bucket `(2^62 - 1, 0)`: with two elapsed intervals the call at
2s is rejected, and with four the call at 4s is allowed but leaves
`remainingTokens = 2^62 - 2`, not `maxTokens - 1`. -/
theorem full_refill_failing_input :
    largeLimiter1.buckets "c" = some ⟨4611686018427387903, 0⟩ ∧
    elapsedIntervals largeLimiter1 ⟨4611686018427387903, 0⟩ 2000000000 = some 2 ∧
    (IsLimitReached largeLimiter1 "c" 2000000000).map Prod.fst = some true ∧
    elapsedIntervals largeLimiter1 ⟨4611686018427387903, 0⟩ 4000000000 = some 4 ∧
    (IsLimitReached largeLimiter1 "c" 4000000000).map (fun r => (r.1, r.2.buckets "c"))
      = some (false, some ⟨4611686018427387902, 0⟩) ∧
    (4611686018427387902 : Int) ≠ largeLimiter1.maxTokens - 1 := by
  decide

/-- C15. Fractional remainder, evaluated at `maxTokens = 2^62` and a one-second interval
from the bucket `(2^62 - 1, 0)`: at 4s `maxTokens * 4` wraps to 0, `currentTokens` is
`2^62 - 1`, the consume branch is taken with `deltaRefills = 0`, and the allowed call
leaves `lastRefillTime = 0`, so `now - lastRefillTime` is 4s: neither below the interval nor
the remainder of the elapsed time. -/
theorem fractional_remainder_failing_input :
    largeLimiter1.buckets "c" = some ⟨4611686018427387903, 0⟩ ∧
    tokensAdded64 largeLimiter1 ⟨4611686018427387903, 0⟩ 4000000000 = some 0 ∧
    currentTokens64 largeLimiter1 ⟨4611686018427387903, 0⟩ 4000000000
      = some 4611686018427387903 ∧
    (4611686018427387903 : Int) ≤ largeLimiter1.maxTokens ∧
    deltaRefills64 largeLimiter1 ⟨4611686018427387903, 0⟩ 4611686018427387903 = some 0 ∧
    (IsLimitReached largeLimiter1 "c" 4000000000).map (fun r => (r.1, r.2.buckets "c"))
      = some (false, some ⟨4611686018427387902, 0⟩) ∧
    ¬ ((4000000000 : Int) - 0 < largeLimiter1.refillInterval) ∧
    (4000000000 : Int) - 0 ≠ (4000000000 - 0) % largeLimiter1.refillInterval := by
  decide

end RateLimiterModel

namespace LoadShedderModel

/-! ## Overload detector -/

theorem runEvents_append (f : Int) (ls : LoadShedder) (xs ys : List Event) :
    runEvents f ls (xs ++ ys) = runEvents f (runEvents f ls xs) ys := by
  simp [runEvents, List.foldl_append]

theorem runOverLoadDetector_stopped (f : Int) (ls : LoadShedder) (e : Event)
    (h : ls.running = false) : runOverLoadDetector f ls e = ls := by
  cases e with
  | tick now => simp [runOverLoadDetector, h]
  | done =>
    cases ls
    simp_all [runOverLoadDetector]

theorem runEvents_stopped (f : Int) (evs : List Event) :
    ∀ ls : LoadShedder, ls.running = false → runEvents f ls evs = ls := by
  induction evs with
  | nil => intro ls _; rfl
  | cons e es ih =>
    intro ls h
    have h1 : runEvents f ls (e :: es) = runEvents f (runOverLoadDetector f ls e) es := rfl
    rw [h1, runOverLoadDetector_stopped f ls e h]
    exact ih ls h

/-- C7. Overload flag reflects drift: after a tick at clock reading `now` taken by the
running loop, `IsOverLoaded` is true exactly when `now - startTime > overloadFactor`
(an elapsed time equal to the threshold gives false), whatever the flag was, and
`startTime` becomes `now`; with overloadFactor = 200ms a tick 250ms after the previous
one sets the flag, and a following tick at most 200ms later clears it. -/
theorem overload_flag_reflects_drift (overloadFactor : Int) (ls : LoadShedder) (now d : Int)
    (hrun : ls.running = true) (hd : d ≤ 200000000) :
    (IsOverLoaded (runOverLoadDetector overloadFactor ls (.tick now)) = true
        ↔ now - ls.startTime > overloadFactor) ∧
    (runOverLoadDetector overloadFactor ls (.tick now)).startTime = now ∧
    IsOverLoaded (runOverLoadDetector overloadFactor
        { ls with startTime := now - overloadFactor } (.tick now)) = false ∧
    IsOverLoaded (runOverLoadDetector 200000000 ls (.tick (ls.startTime + 250000000))) = true ∧
    IsOverLoaded (runEvents 200000000 ls
        [.tick (ls.startTime + 250000000), .tick (ls.startTime + 250000000 + d)]) = false := by
  refine ⟨?_, ?_, ?_, ?_, ?_⟩
  · by_cases h : now - ls.startTime > overloadFactor <;>
      simp [runOverLoadDetector, tickStep, IsOverLoaded, hrun, h]
  · by_cases h : now - ls.startTime > overloadFactor <;>
      simp [runOverLoadDetector, tickStep, hrun, h]
  · simp [runOverLoadDetector, tickStep, IsOverLoaded, hrun]
  · simp [runOverLoadDetector, tickStep, IsOverLoaded, hrun]
  · have h1 : ls.startTime + 250000000 - ls.startTime > 200000000 := by omega
    have h2 : ¬ (ls.startTime + 250000000 + d - (ls.startTime + 250000000) > 200000000) := by
      omega
    simp only [runEvents, List.foldl, runOverLoadDetector, tickStep, IsOverLoaded, hrun, h1, h2,
      if_true, if_false]

theorem overload_flag_reflects_drift_witness :
    (NewLoadShedder 100000000 200000000 0).running = true ∧ (150000000 : Int) ≤ 200000000 ∧
    ((IsOverLoaded (runOverLoadDetector 200000000 (NewLoadShedder 100000000 200000000 0)
          (.tick 250000000)) = true
        ↔ 250000000 - (NewLoadShedder 100000000 200000000 0).startTime > 200000000) ∧
    (runOverLoadDetector 200000000 (NewLoadShedder 100000000 200000000 0)
        (.tick 250000000)).startTime = 250000000 ∧
    IsOverLoaded (runOverLoadDetector 200000000
        { NewLoadShedder 100000000 200000000 0 with startTime := 250000000 - 200000000 }
        (.tick 250000000)) = false ∧
    IsOverLoaded (runOverLoadDetector 200000000 (NewLoadShedder 100000000 200000000 0)
        (.tick ((NewLoadShedder 100000000 200000000 0).startTime + 250000000))) = true ∧
    IsOverLoaded (runEvents 200000000 (NewLoadShedder 100000000 200000000 0)
        [.tick ((NewLoadShedder 100000000 200000000 0).startTime + 250000000),
         .tick ((NewLoadShedder 100000000 200000000 0).startTime + 250000000 + 150000000)])
      = false) :=
  ⟨by decide, by decide,
    overload_flag_reflects_drift 200000000 (NewLoadShedder 100000000 200000000 0)
      250000000 150000000 (by decide) (by decide)⟩

/-- C9. Cancellation stops updates: once the loop has taken `ctx.Done()` it has returned, and
whatever events follow, `IsOverLoaded` keeps returning the value stored before the
cancellation. -/
theorem cancellation_stops_updates (overloadFactor : Int) (ls : LoadShedder)
    (before later : List Event) :
    (runEvents overloadFactor ls (before ++ [Event.done])).running = false ∧
    IsOverLoaded (runEvents overloadFactor ls (before ++ Event.done :: later))
      = IsOverLoaded (runEvents overloadFactor ls before) := by
  have hstep : runEvents overloadFactor ls (before ++ [Event.done])
      = { runEvents overloadFactor ls before with running := false } := by
    rw [runEvents_append]
    rfl
  have hsplit : before ++ Event.done :: later = (before ++ [Event.done]) ++ later := by simp
  refine ⟨by rw [hstep], ?_⟩
  rw [hsplit, runEvents_append, runEvents_stopped _ _ _ (by rw [hstep]), hstep]
  rfl

/-- C10. Initial value is not overloaded: for every checkInterval and overloadFactor,
`IsOverLoaded` on the detector returned by `NewLoadShedder`, before any tick has been
processed (also when the loop is cancelled first), returns false. -/
theorem initial_value_not_overloaded (checkInterval overloadFactor now : Int) (n : Nat) :
    IsOverLoaded (NewLoadShedder checkInterval overloadFactor now) = false ∧
    IsOverLoaded (runEvents overloadFactor (NewLoadShedder checkInterval overloadFactor now)
      (List.replicate n Event.done)) = false := by
  refine ⟨rfl, ?_⟩
  cases n with
  | zero => rfl
  | succ m =>
    have h1 : runEvents overloadFactor (NewLoadShedder checkInterval overloadFactor now)
        (List.replicate (m + 1) Event.done)
        = runEvents overloadFactor
            { NewLoadShedder checkInterval overloadFactor now with running := false }
            (List.replicate m Event.done) := rfl
    rw [h1, runEvents_stopped _ _ _ rfl]
    rfl

end LoadShedderModel
